import Mathlib

/-!
# KantanDocGen: the `FGraphNodeImagerModule` documentation pipeline

A shallow embedding of `Source/GraphNodeImager/Private/GraphNodeImager.cpp`:
`GenerateDocs` (enumerate, filter, process, finalize, hand off to the external tool) and
`ProcessIntermediateDocs` (spawn the tool, poll it, frame its output into log lines).

Every call that leaves the module (the doc generator, the file manager, the platform process
layer, the log) is recorded as an `Event`; a run is the list of events it performs, in order.
Wall-clock timing (`FPlatformTime::Seconds`, `SCOPE_SECONDS_COUNTER`) is floating point and is
not modelled; the three timing log lines are kept, without their numeric arguments.
-/

namespace KantanDocGen

/-! ## Engine data types -/

/-- An `FString`: a sequence of `TCHAR`s. -/
abbrev FString := List Char

/-- An `FName`: two names are equal when comparison index and number agree. -/
structure FName where
  ComparisonIndex : Nat
  Number : Nat
deriving DecidableEq, Repr

/-- A `UObject`, as far as the pipeline looks at it: its name (`GetFName`) and its identity. -/
structure UObject where
  Address : Nat
  GetFName : FName
deriving DecidableEq, Repr

/-- Verbosity of a `UE_LOG` statement. -/
inductive ELogVerbosity where
  | Error
  | Warning
  | Log
deriving DecidableEq, Repr

/-- An argument of a `UE_LOG` format string. -/
inductive LogArg where
  | text (Value : FString)
  | int (Value : Int)
  | seconds
deriving DecidableEq, Repr

/-- The calls a run makes to its collaborators, with their arguments and results. -/
inductive Event where
  | Init (DocumentationTitle : FString) (Result : Bool)
  | AddNotification
  | DeleteDirectory (Path : FString) (RequireExists : Bool) (Tree : Bool)
  | GetNext (Result : Option UObject)
  | ProcessSourceObject (Obj : UObject) (IntermediateDir : FString) (Result : Int)
  | Finalize (IntermediateDir : FString)
  | Reset
  | UE_LOG (Verbosity : ELogVerbosity) (Format : String) (Args : List LogArg)
  | CreatePipe (Result : Bool)
  | VerifyFailed
  | CreateProc (URL : FString) (Parms : FString) (IsValid : Bool)
  | GetProcReturnCode (Result : Option Int)
  | ReadPipe (Output : FString)
  | Sleep
  | CloseProc
  | ClosePipe
deriving DecidableEq, Repr

/-! ## `FString` primitives used by the framing loop -/

/-- Engine `FString::FindChar`: index of the first occurrence of `c`, if there is one. -/
def FindChar : FString → Char → Option Nat
  | [], _ => none
  | x :: xs, c => if x = c then some 0 else (FindChar xs c).map (· + 1)

/-- Engine `FString::Left`: the leftmost `Count` characters. -/
def Left (s : FString) (Count : Nat) : FString := s.take Count

/-- Engine `FString::Mid` with the default count: everything from index `Start` on. -/
def Mid (s : FString) (Start : Nat) : FString := s.drop Start

/-- Engine `FString::EndsWith`. The engine compares ignoring case by default, which makes no
difference for the only suffix this module passes, a carriage return. -/
def EndsWith (s InSuffix : FString) : Bool :=
  decide (0 < InSuffix.length ∧ InSuffix.length ≤ s.length
    ∧ s.drop (s.length - InSuffix.length) = InSuffix)

/-- Engine `FString::RemoveFromEnd`: drops `InSuffix` from the end when the string ends with it. -/
def RemoveFromEnd (s InSuffix : FString) : FString :=
  if EndsWith s InSuffix then s.take (s.length - InSuffix.length) else s

/-! ## The framing loop of `ProcessIntermediateDocs` -/

/-- The log statement of the framing loop. -/
def LogLine (Line : FString) : Event :=
  Event.UE_LOG ELogVerbosity.Log "[KantanDocGen] %s" [LogArg.text Line]

/-- The inner `while(BufferedText.FindChar('\n', EndOfLineIdx))` loop: the log events it
performs and the `BufferedText` it leaves. -/
def FramingLoop (BufferedText : FString) : List Event × FString :=
  match h : FindChar BufferedText '\n' with
  | none => ([], BufferedText)
  | some EndOfLineIdx =>
    let Line := RemoveFromEnd (Left BufferedText EndOfLineIdx) ['\r']
    let next := FramingLoop (Mid BufferedText (EndOfLineIdx + 1))
    (LogLine Line :: next.1, next.2)
termination_by BufferedText.length
decreasing_by
  have bound : ∀ (s : FString) (i : Nat), FindChar s '\n' = some i → i < s.length := by
    intro s
    induction s with
    | nil => intro i hi; simp [FindChar] at hi
    | cons x xs ih =>
      intro i hi
      unfold FindChar at hi
      split at hi
      · cases hi; simp
      · cases hx : FindChar xs '\n' with
        | none => simp [hx] at hi
        | some j =>
          simp [hx] at hi
          subst hi
          have := ih j hx
          simp
          omega
  have := bound _ _ h
  simp [Mid]
  omega

/-- The pipe reads and exit-code checks of the poll loop, as far as a run has got: the events
performed, whether the loop has left (`bProcessFinished`), and the loop variables. -/
structure PollResult where
  trace : List Event
  bProcessFinished : Bool
  ReturnCode : Int
  BufferedText : FString
deriving DecidableEq, Repr

/-- The `for(bool bProcessFinished = false; !bProcessFinished; )` loop. Each element of the
first argument is what one iteration observes: the answer of `GetProcReturnCode` (`some code`
once the child has exited) and the text `ReadPipe` returns. When the observations run out
before an exit is seen the loop is still polling. -/
def PollLoop : List (Option Int × FString) → Int → FString → PollResult
  | [], ReturnCode, BufferedText => ⟨[], false, ReturnCode, BufferedText⟩
  | (Result, Output) :: rest, ReturnCode, BufferedText =>
    let ReturnCode := Result.getD ReturnCode
    let framed := FramingLoop (BufferedText ++ Output)
    let events := [Event.GetProcReturnCode Result, Event.ReadPipe Output] ++ framed.1 ++ [Event.Sleep]
    if Result.isSome then
      ⟨events, true, ReturnCode, framed.2⟩
    else
      let next := PollLoop rest ReturnCode framed.2
      ⟨events ++ next.trace, next.bProcessFinished, next.ReturnCode, next.BufferedText⟩

/-! ## `ProcessIntermediateDocs` -/

/-- The `TEXT("...")` literal. -/
def TEXT (s : String) : FString := s.toList

/-- What the engine and the operating system answer during a run: the two engine directories,
the path operator `/` of `FString`, whether `CreatePipe` succeeds, whether the handle returned
by `CreateProc` is valid, and what the successive poll iterations observe. -/
structure Platform where
  GameIntermediateDir : FString
  EngineDir : FString
  PathAppend : FString → FString → FString
  CreatePipe : Bool
  CreateProc : Bool
  Polls : List (Option Int × FString)

/-- The local `Args` of `ProcessIntermediateDocs`: the command line handed to `CreateProc`. -/
def Args (IntermediateDir OutputDir DocTitle : FString) (bCleanOutput : Bool) : FString :=
  TEXT "-outputdir=" ++ TEXT "\"" ++ OutputDir ++ TEXT "\""
    ++ TEXT " -fromintermediate -intermediatedir=" ++ TEXT "\"" ++ IntermediateDir ++ TEXT "\""
    ++ TEXT " -name=" ++ DocTitle
    ++ (if bCleanOutput then TEXT " -cleanoutput" else TEXT "")

/-- The local `DocGenPath` of `ProcessIntermediateDocs`. -/
def DocGenPath (P : Platform) : FString :=
  let DotNETBinariesDir := P.PathAppend P.EngineDir (TEXT "Binaries/DotNET")
  let DocGenExeName := TEXT "KantanDocGen.exe"
  P.PathAppend DotNETBinariesDir DocGenExeName

/-- The function `FGraphNodeImagerModule::ProcessIntermediateDocs`. A failed `verify` is fatal; a poll loop
that has not yet seen the child exit is still running, and the run has got no further. -/
def ProcessIntermediateDocs (P : Platform) (IntermediateDir OutputDir DocTitle : FString)
    (bCleanOutput : Bool) : List Event :=
  if P.CreatePipe then
    Event.CreatePipe true
      :: Event.CreateProc (DocGenPath P) (Args IntermediateDir OutputDir DocTitle bCleanOutput)
          P.CreateProc
      :: (if P.CreateProc then
            let polled := PollLoop P.Polls 0 []
            polled.trace ++
              (if polled.bProcessFinished then
                Event.CloseProc
                  :: ((if polled.ReturnCode ≠ 0 then
                        [Event.UE_LOG ELogVerbosity.Error
                          "KantanDocGen tool failed, see above output." []]
                      else [])
                    ++ [Event.ClosePipe, Event.ClosePipe])
              else [])
          else [Event.ClosePipe, Event.ClosePipe])
  else
    [Event.CreatePipe false, Event.VerifyFailed]

/-! ## `GenerateDocs` -/

/-- An `FDirectoryPath`. -/
structure FDirectoryPath where
  Path : FString
deriving DecidableEq, Repr

/-- The fields of `FKantanDocGenSettings` that `GenerateDocs` reads. -/
structure FKantanDocGenSettings where
  DocumentationTitle : FString
  NativeModules : List FName
  ContentPaths : List FDirectoryPath
  ExcludedClasses : List FName
  OutputDirectory : FDirectoryPath
  bCleanOutputDirectory : Bool
deriving DecidableEq, Repr

/-- The `FNodeDocsGenerator` behind `Gen`: the state `MakeUnique` creates, and what `Init` and
`ProcessSourceObject` return and do to that state. `Finalize` returns nothing and the
generator is destroyed right after it, so it appears as an event only. -/
structure FNodeDocsGenerator (σ : Type) where
  New : σ
  Init : FString → σ → Bool × σ
  ProcessSourceObject : UObject → FString → σ → Int × σ

/-- The objects the two provider kinds find for one identifier. -/
structure Providers where
  FNativeModuleEnumerator : FName → List UObject
  FContentPathEnumerator : FDirectoryPath → List UObject

/-- Modelled from the spec: `FCompositeEnumerator` (Enumeration/CompositeEnumerator.h is not
among the sources). It owns one underlying enumerator per identifier and drains each fully,
in identifier order, before moving to the next; the list is the sequence `GetNext` yields. -/
def FCompositeEnumerator {ι : Type} (provider : ι → List UObject) (ids : List ι) :
    List UObject :=
  ids.flatMap provider

/-- A `TSet`, by its elements. -/
abbrev TSet (α : Type) := List α

/-- Engine `TSet::Add`: the element joins the set unless it is already in it. -/
def TSet.Add {α : Type} [DecidableEq α] (s : TSet α) (x : α) : TSet α :=
  if x ∈ s then s else s ++ [x]

/-- Engine `TSet::Contains`. -/
def TSet.Contains {α : Type} [DecidableEq α] (s : TSet α) (x : α) : Bool :=
  decide (x ∈ s)

/-- Addition on `int32`, wrapping around. -/
def addInt32 (a b : Int) : Int :=
  (a + b + 2147483648) % 4294967296 - 2147483648

/-- What the enumeration loops have done: the events, the generator state, `NodeCount`. -/
structure LoopResult (σ : Type) where
  trace : List Event
  Gen : σ
  NodeCount : Int

/-- The `while(auto Obj = Enumerator->GetNext())` loop over one enumerator. -/
def EnumeratorLoop {σ : Type} (G : FNodeDocsGenerator σ) (Excluded : TSet FName)
    (IntermediateDir : FString) : List UObject → σ → Int → LoopResult σ
  | [], Gen, NodeCount => ⟨[Event.GetNext none], Gen, NodeCount⟩
  | Obj :: rest, Gen, NodeCount =>
    if Excluded.Contains Obj.GetFName then
      let next := EnumeratorLoop G Excluded IntermediateDir rest Gen NodeCount
      ⟨Event.GetNext (some Obj) :: next.trace, next.Gen, next.NodeCount⟩
    else
      let Result := G.ProcessSourceObject Obj IntermediateDir Gen
      let next := EnumeratorLoop G Excluded IntermediateDir rest Result.2
        (addInt32 NodeCount Result.1)
      ⟨Event.GetNext (some Obj) :: Event.ProcessSourceObject Obj IntermediateDir Result.1
        :: next.trace, next.Gen, next.NodeCount⟩

/-- The `for(auto& Enumerator : Enumerators)` loop. -/
def EnumeratorsLoop {σ : Type} (G : FNodeDocsGenerator σ) (Excluded : TSet FName)
    (IntermediateDir : FString) : List (List UObject) → σ → Int → LoopResult σ
  | [], Gen, NodeCount => ⟨[], Gen, NodeCount⟩
  | Enumerator :: rest, Gen, NodeCount =>
    let first := EnumeratorLoop G Excluded IntermediateDir Enumerator Gen NodeCount
    let next := EnumeratorsLoop G Excluded IntermediateDir rest first.Gen first.NodeCount
    ⟨first.trace ++ next.trace, next.Gen, next.NodeCount⟩

/-- The local `Enumerators` of `GenerateDocs`. -/
def Enumerators (Src : Providers) (Settings : FKantanDocGenSettings) : List (List UObject) :=
  [FCompositeEnumerator Src.FNativeModuleEnumerator Settings.NativeModules,
   FCompositeEnumerator Src.FContentPathEnumerator Settings.ContentPaths]

/-- The local `IntermediateDir` of `GenerateDocs`. -/
def IntermediateDir (P : Platform) : FString :=
  P.PathAppend P.GameIntermediateDir (TEXT "KantanDocGen")

/-- The local `Excluded` of `GenerateDocs`. -/
def Excluded (Settings : FKantanDocGenSettings) : TSet FName :=
  Settings.ExcludedClasses.foldl TSet.Add []

/-- The enumeration loops as `GenerateDocs` runs them, from the state `Init` left. -/
def Processing {σ : Type} (P : Platform) (Src : Providers) (G : FNodeDocsGenerator σ)
    (Settings : FKantanDocGenSettings) : LoopResult σ :=
  EnumeratorsLoop G (Excluded Settings) (IntermediateDir P) (Enumerators Src Settings)
    (G.Init Settings.DocumentationTitle G.New).2 0

/-- The function `FGraphNodeImagerModule::GenerateDocs`. The set `Processed` is declared and never used. -/
def GenerateDocs {σ : Type} (P : Platform) (Src : Providers) (G : FNodeDocsGenerator σ)
    (Settings : FKantanDocGenSettings) : List Event :=
  if (G.Init Settings.DocumentationTitle G.New).1 then
    let bCleanIntermediate := true
    let loops := Processing P Src G Settings
    [Event.Init Settings.DocumentationTitle true, Event.AddNotification]
      ++ (if bCleanIntermediate then [Event.DeleteDirectory (IntermediateDir P) false true]
          else [])
      ++ loops.trace
      ++ [Event.Finalize (IntermediateDir P),
          Event.UE_LOG ELogVerbosity.Log "Intermediate doc gen timing:" [],
          Event.UE_LOG ELogVerbosity.Log "Enumeration: %.3fs" [LogArg.seconds],
          Event.UE_LOG ELogVerbosity.Log
            "Processing: %.3fs (Image gen: %.3fs, Doc gen: %.3fs)"
            [LogArg.seconds, LogArg.seconds, LogArg.seconds],
          Event.Reset]
      ++ (if loops.NodeCount > 0 then
            Event.UE_LOG ELogVerbosity.Log "Intermediate docs generated for %i nodes."
                [LogArg.int loops.NodeCount]
              :: ProcessIntermediateDocs P (IntermediateDir P) Settings.OutputDirectory.Path
                  Settings.DocumentationTitle Settings.bCleanOutputDirectory
          else [Event.UE_LOG ELogVerbosity.Warning "No nodes documented!" []])
  else
    [Event.Init Settings.DocumentationTitle false,
     Event.UE_LOG ELogVerbosity.Error "Failed to initialize doc generator, aborting." []]

/-! ## Reading a run -/

/-- The line a framing-loop log event carries. -/
def Event.emittedLine : Event → Option FString
  | Event.UE_LOG ELogVerbosity.Log Format [LogArg.text Line] =>
    if Format = "[KantanDocGen] %s" then some Line else none
  | _ => none

/-- The child output lines a run has logged, in order. -/
def emittedLines (trace : List Event) : List FString :=
  trace.filterMap Event.emittedLine

/-- The object a `GetNext` call has yielded. -/
def Event.yielded : Event → Option UObject
  | Event.GetNext (some Obj) => some Obj
  | _ => none

/-- The objects the enumerators have yielded during a run, in order. -/
def yieldedObjects (trace : List Event) : List UObject :=
  trace.filterMap Event.yielded

/-- The object a `ProcessSourceObject` call was made on. -/
def Event.processed : Event → Option UObject
  | Event.ProcessSourceObject Obj _ _ => some Obj
  | _ => none

/-- The objects `ProcessSourceObject` was called on during a run, in order. -/
def processedObjects (trace : List Event) : List UObject :=
  trace.filterMap Event.processed

/-- The value a `ProcessSourceObject` call has returned. -/
def Event.returned : Event → Option Int
  | Event.ProcessSourceObject _ _ Result => some Result
  | _ => none

/-- The values `ProcessSourceObject` has returned during a run, in order. -/
def returnedCounts (trace : List Event) : List Int :=
  trace.filterMap Event.returned

/-- A call made by the enumeration loops: `GetNext` or `ProcessSourceObject`. -/
def Event.isEnumeration : Event → Bool
  | Event.GetNext _ => true
  | Event.ProcessSourceObject _ _ _ => true
  | _ => false

/-- A `Finalize` call. -/
def Event.isFinalize : Event → Bool
  | Event.Finalize _ => true
  | _ => false

/-- A `ProcessSourceObject` call. -/
def Event.isProcessSourceObject : Event → Bool
  | Event.ProcessSourceObject _ _ _ => true
  | _ => false

/-- A call to the platform process layer (pipes, child process, sleep), which only
`ProcessIntermediateDocs` makes. -/
def Event.isPlatformProcess : Event → Bool
  | Event.CreatePipe _ => true
  | Event.VerifyFailed => true
  | Event.CreateProc _ _ _ => true
  | Event.GetProcReturnCode _ => true
  | Event.ReadPipe _ => true
  | Event.Sleep => true
  | Event.CloseProc => true
  | Event.ClosePipe => true
  | _ => false

/-- A `DeleteDirectory` call. -/
def Event.isDeleteDirectory : Event → Bool
  | Event.DeleteDirectory _ _ _ => true
  | _ => false

/-- A call made by one poll iteration: exit-code check, pipe read, sleep. -/
def Event.isPoll : Event → Bool
  | Event.GetProcReturnCode _ => true
  | Event.ReadPipe _ => true
  | Event.Sleep => true
  | _ => false

/-- A `UE_LOG` statement. -/
def Event.isLog : Event → Bool
  | Event.UE_LOG _ _ _ => true
  | _ => false

/-- The warning of a run that documented nothing. -/
def NoNodesWarning : Event :=
  Event.UE_LOG ELogVerbosity.Warning "No nodes documented!" []

/-- Whether a name is outside the exclusion list of the settings. -/
def notExcluded (Settings : FKantanDocGenSettings) (Obj : UObject) : Bool :=
  decide (Obj.GetFName ∉ Settings.ExcludedClasses)

/-! ## The specification's vocabulary -/

/-- The segments of a text cut at each line feed: every piece that a line feed ends. What
follows the last line feed (nothing, when the text is terminated) is not among them. -/
def terminatedSegments (T : FString) : List FString :=
  (T.splitOn '\n').dropLast

/-- A segment with one trailing carriage return removed when present. -/
def stripCarriageReturn (s : FString) : FString :=
  if s.getLast? = some '\r' then s.dropLast else s

/-- Splitting a command line at whitespace outside double quotes. `current` is the token
being read and `inQuotes` tells whether a double quote is open; quote characters stay in
their token. -/
def splitOutsideQuotes : FString → Bool → FString → List FString
  | [], _, current => if current = [] then [] else [current]
  | c :: cs, inQuotes, current =>
    if c = '"' then splitOutsideQuotes cs (!inQuotes) (current ++ [c])
    else if (c = ' ' ∨ c = '\t') ∧ inQuotes = false then
      if current = [] then splitOutsideQuotes cs false []
      else current :: splitOutsideQuotes cs false []
    else splitOutsideQuotes cs inQuotes (current ++ [c])

/-- The tokens of a command line. -/
def commandLineTokens (s : FString) : List FString :=
  splitOutsideQuotes s false []

/-- The tokens of a command line that start with `-name=`. -/
def nameTokens (s : FString) : List FString :=
  (commandLineTokens s).filter (fun t => (TEXT "-name=").isPrefixOf t)

/-- The command line the specification describes: both directories in double quotes, then
the title, then the clean-output switch when requested. -/
def describedArgs (IntermediateDir OutputDir DocTitle : FString) (bCleanOutput : Bool) :
    FString :=
  TEXT "-outputdir=\"" ++ OutputDir ++ TEXT "\" -fromintermediate -intermediatedir=\""
    ++ IntermediateDir ++ TEXT "\" -name=" ++ DocTitle
    ++ (if bCleanOutput then TEXT " -cleanoutput" else [])

/-! ## Concrete runs -/

/-- A counting stub generator: `Init` succeeds and every object yields one node. -/
def stubGenerator : FNodeDocsGenerator Unit :=
  ⟨(), fun _ Gen => (true, Gen), fun _ _ Gen => (1, Gen)⟩

/-- A generator whose `Init` fails. -/
def failingGenerator : FNodeDocsGenerator Unit :=
  ⟨(), fun _ Gen => (false, Gen), fun _ _ Gen => (1, Gen)⟩

/-- A source object. -/
def ClassA : UObject := ⟨1, ⟨10, 0⟩⟩

/-- Another source object. -/
def ClassB : UObject := ⟨2, ⟨11, 0⟩⟩

/-- Providers: every native module holds `ClassA` and `ClassB`, content paths hold nothing. -/
def sampleProviders : Providers :=
  ⟨fun _ => [ClassA, ClassB], fun _ => []⟩

/-- A platform on which the tool starts, writes two lines over two reads, and exits with 0. -/
def samplePlatform : Platform where
  GameIntermediateDir := TEXT "Game/Intermediate"
  EngineDir := TEXT "Engine"
  PathAppend := fun Lhs Rhs => Lhs ++ '/' :: Rhs
  CreatePipe := true
  CreateProc := true
  Polls := [(none, TEXT "line1\nli"), (some 0, TEXT "ne2\r\n")]

/-- Settings with one native module, nothing excluded, and no clean-output request. -/
def sampleSettings : FKantanDocGenSettings where
  DocumentationTitle := TEXT "MyDocs"
  NativeModules := [⟨20, 0⟩]
  ContentPaths := []
  ExcludedClasses := []
  OutputDirectory := ⟨TEXT "Out Dir"⟩
  bCleanOutputDirectory := false

/-- A platform on which `CreateProc` returns an invalid handle. -/
def spawnFailurePlatform : Platform :=
  { samplePlatform with CreateProc := false }

/-- A platform on which the tool writes a line and then an unterminated segment, both read on
the iteration that sees it exit with 0. -/
def partialLinePlatform : Platform :=
  { samplePlatform with Polls := [(some 0, TEXT "done\npartial")] }

/-! ## Facts about the `FString` primitives and the framing loop -/

theorem FindChar_eq_none {s : FString} {c : Char} (h : c ∉ s) : FindChar s c = none := by
  induction s with
  | nil => rfl
  | cons x xs ih =>
    simp only [List.mem_cons, not_or] at h
    have hx : ¬ x = c := fun e => h.1 e.symm
    simp [FindChar, hx, ih h.2]

theorem FindChar_first {a : FString} {c : Char} (h : c ∉ a) (b : FString) :
    FindChar (a ++ c :: b) c = some a.length := by
  induction a with
  | nil => simp [FindChar]
  | cons x xs ih =>
    simp only [List.mem_cons, not_or] at h
    have hx : ¬ x = c := fun e => h.1 e.symm
    simp [FindChar, hx, ih h.2]

theorem exists_first_occurrence {s : FString} {c : Char} (h : c ∈ s) :
    ∃ a b, s = a ++ c :: b ∧ c ∉ a := by
  induction s with
  | nil => simp at h
  | cons x xs ih =>
    by_cases hx : x = c
    · exact ⟨[], xs, by simp [hx], by simp⟩
    · have hmem : c ∈ xs := by
        rcases List.mem_cons.1 h with e | e
        · exact absurd e.symm hx
        · exact e
      obtain ⟨a, b, hab, ha⟩ := ih hmem
      refine ⟨x :: a, b, by simp [hab], ?_⟩
      simp only [List.mem_cons, not_or]
      exact ⟨fun e => hx e.symm, ha⟩

theorem RemoveFromEnd_carriageReturn (s : FString) :
    RemoveFromEnd s ['\r'] = stripCarriageReturn s := by
  rcases List.eq_nil_or_concat s with rfl | ⟨t, c, rfl⟩
  · simp [RemoveFromEnd, EndsWith, stripCarriageReturn]
  · by_cases hc : c = '\r'
    · simp [RemoveFromEnd, EndsWith, stripCarriageReturn, hc]
    · simp [RemoveFromEnd, EndsWith, stripCarriageReturn, hc]

theorem FramingLoop_of_not_mem {s : FString} (h : '\n' ∉ s) : FramingLoop s = ([], s) := by
  rw [FramingLoop]
  split
  · rfl
  · rename_i i hi
    rw [FindChar_eq_none h] at hi
    cases hi

theorem FramingLoop_first_line {a : FString} (h : '\n' ∉ a) (b : FString) :
    FramingLoop (a ++ '\n' :: b)
      = (LogLine (stripCarriageReturn a) :: (FramingLoop b).1, (FramingLoop b).2) := by
  rw [FramingLoop]
  split
  · rename_i hi
    rw [FindChar_first h] at hi
    cases hi
  · rename_i i hi
    rw [FindChar_first h] at hi
    cases hi
    simp [Left, Mid, RemoveFromEnd_carriageReturn]

theorem splitOn_lineFeed_of_not_mem {s : FString} (h : '\n' ∉ s) : s.splitOn '\n' = [s] := by
  unfold List.splitOn
  apply List.splitOnP_eq_single
  intro x hx hxn
  have : x = '\n' := by simpa using hxn
  exact h (this ▸ hx)

theorem splitOn_lineFeed_first {a : FString} (h : '\n' ∉ a) (b : FString) :
    (a ++ '\n' :: b).splitOn '\n' = a :: b.splitOn '\n' := by
  unfold List.splitOn
  apply List.splitOnP_first
  · intro x hx hxn
    have : x = '\n' := by simpa using hxn
    exact h (this ▸ hx)
  · simp

theorem terminatedSegments_first {a : FString} (h : '\n' ∉ a) (b : FString) :
    terminatedSegments (a ++ '\n' :: b) = a :: terminatedSegments b := by
  unfold terminatedSegments
  rw [splitOn_lineFeed_first h]
  have hne : b.splitOn '\n' ≠ [] := by
    unfold List.splitOn
    exact List.splitOnP_ne_nil _ _
  exact List.dropLast_cons_of_ne_nil hne

theorem lineFeed_induction {motive : FString → Prop}
    (base : ∀ s, '\n' ∉ s → motive s)
    (step : ∀ a b, '\n' ∉ a → motive b → motive (a ++ '\n' :: b)) (s : FString) :
    motive s := by
  have key : ∀ (n : Nat) (s : FString), s.length ≤ n → motive s := by
    intro n
    induction n with
    | zero =>
      intro s hlen
      have : s = [] := List.length_eq_zero.1 (Nat.le_zero.1 hlen)
      subst this
      exact base [] (by simp)
    | succ n ih =>
      intro s hlen
      by_cases hmem : '\n' ∈ s
      · obtain ⟨x, y, rfl, hx⟩ := exists_first_occurrence hmem
        have hy : y.length ≤ n := by
          simp at hlen
          omega
        exact step x y hx (ih y hy)
      · exact base s hmem
  exact key s.length s (Nat.le_refl _)

theorem FramingLoop_append (a b : FString) :
    FramingLoop (a ++ b)
      = ((FramingLoop a).1 ++ (FramingLoop ((FramingLoop a).2 ++ b)).1,
         (FramingLoop ((FramingLoop a).2 ++ b)).2) := by
  induction a using lineFeed_induction with
  | base s hs =>
    rw [FramingLoop_of_not_mem hs]
    simp
  | step x y hx ih =>
    have e : x ++ '\n' :: y ++ b = x ++ '\n' :: (y ++ b) := by simp
    rw [e, FramingLoop_first_line hx, FramingLoop_first_line hx, ih]
    simp

theorem FramingLoop_buffer_no_lineFeed (s : FString) : '\n' ∉ (FramingLoop s).2 := by
  induction s using lineFeed_induction with
  | base s hs =>
    rw [FramingLoop_of_not_mem hs]
    exact hs
  | step x y hx ih =>
    rw [FramingLoop_first_line hx]
    exact ih

theorem PollLoop_running (running : List FString) (Result : Option Int) (last : FString)
    (ReturnCode : Int) (BufferedText : FString) (hB : '\n' ∉ BufferedText) :
    emittedLines
        (PollLoop (running.map (fun c => (none, c)) ++ [(Result, last)]) ReturnCode
          BufferedText).trace
      = emittedLines (FramingLoop (BufferedText ++ (running ++ [last]).flatten)).1
    ∧ (PollLoop (running.map (fun c => (none, c)) ++ [(Result, last)]) ReturnCode
          BufferedText).BufferedText
      = (FramingLoop (BufferedText ++ (running ++ [last]).flatten)).2 := by
  induction running generalizing ReturnCode BufferedText with
  | nil =>
    cases Result <;>
      simp [PollLoop, emittedLines, Event.emittedLine]
  | cons c cs ih =>
    have h := ih ReturnCode (FramingLoop (BufferedText ++ c)).2
      (FramingLoop_buffer_no_lineFeed _)
    have e : BufferedText ++ (c :: cs ++ [last]).flatten
        = (BufferedText ++ c) ++ (cs ++ [last]).flatten := by simp
    rw [e, FramingLoop_append (BufferedText ++ c)]
    constructor
    · simp only [List.map_cons, List.cons_append, PollLoop, Option.isSome_none, Option.getD_none]
      simp [emittedLines, Event.emittedLine]
      simpa [emittedLines] using h.1
    · simp only [List.map_cons, List.cons_append, PollLoop, Option.isSome_none, Option.getD_none]
      simpa using h.2

/-! ## Facts about the enumeration loops -/

theorem mem_foldl_Add (l acc : List FName) (x : FName) :
    x ∈ l.foldl TSet.Add acc ↔ x ∈ acc ∨ x ∈ l := by
  induction l generalizing acc with
  | nil => simp
  | cons y ys ih =>
    rw [List.foldl_cons, ih]
    by_cases hy : y ∈ acc
    · simp only [TSet.Add, hy, if_true, List.mem_cons]
      constructor
      · rintro (h | h)
        · exact Or.inl h
        · exact Or.inr (Or.inr h)
      · rintro (h | h | h)
        · exact Or.inl h
        · exact Or.inl (h ▸ hy)
        · exact Or.inr h
    · simp only [TSet.Add, hy, if_false, List.mem_append, List.mem_singleton, List.mem_cons]
      tauto

theorem Excluded_Contains (Settings : FKantanDocGenSettings) (Obj : UObject) :
    (Excluded Settings).Contains Obj.GetFName = !notExcluded Settings Obj := by
  have h := mem_foldl_Add Settings.ExcludedClasses [] Obj.GetFName
  simp only [List.not_mem_nil, false_or] at h
  by_cases hx : Obj.GetFName ∈ Settings.ExcludedClasses
  · simp [TSet.Contains, notExcluded, Excluded, h, hx]
  · simp [TSet.Contains, notExcluded, Excluded, h, hx]

theorem EnumeratorLoop_observe {σ : Type} (G : FNodeDocsGenerator σ) (Ex : TSet FName)
    (Dir : FString) (Objs : List UObject) (Gen : σ) (NodeCount : Int) :
    yieldedObjects (EnumeratorLoop G Ex Dir Objs Gen NodeCount).trace = Objs
      ∧ processedObjects (EnumeratorLoop G Ex Dir Objs Gen NodeCount).trace
          = Objs.filter (fun Obj => !Ex.Contains Obj.GetFName)
      ∧ (EnumeratorLoop G Ex Dir Objs Gen NodeCount).NodeCount
          = (returnedCounts (EnumeratorLoop G Ex Dir Objs Gen NodeCount).trace).foldl
              addInt32 NodeCount
      ∧ (∀ e ∈ (EnumeratorLoop G Ex Dir Objs Gen NodeCount).trace, e.isEnumeration = true) := by
  induction Objs generalizing Gen NodeCount with
  | nil =>
    simp [EnumeratorLoop, yieldedObjects, processedObjects, returnedCounts, Event.yielded,
      Event.processed, Event.returned, Event.isEnumeration]
  | cons Obj rest ih =>
    by_cases hEx : Ex.Contains Obj.GetFName = true
    · obtain ⟨h1, h2, h3, h4⟩ := ih Gen NodeCount
      simp only [yieldedObjects, processedObjects, returnedCounts] at h1 h2 h3 ⊢
      refine ⟨?_, ?_, ?_, ?_⟩
      · simp [EnumeratorLoop, hEx, Event.yielded, h1]
      · simp [EnumeratorLoop, hEx, Event.processed, h2]
      · simp only [EnumeratorLoop, hEx, if_true]
        rw [h3]
        simp [Event.returned]
      · intro e he
        simp only [EnumeratorLoop, hEx, if_true, List.mem_cons] at he
        rcases he with rfl | he
        · rfl
        · exact h4 e he
    · obtain ⟨h1, h2, h3, h4⟩ := ih (G.ProcessSourceObject Obj Dir Gen).2
        (addInt32 NodeCount (G.ProcessSourceObject Obj Dir Gen).1)
      simp only [yieldedObjects, processedObjects, returnedCounts] at h1 h2 h3 ⊢
      refine ⟨?_, ?_, ?_, ?_⟩
      · simp [EnumeratorLoop, hEx, Event.yielded, h1]
      · simp [EnumeratorLoop, hEx, Event.processed, h2]
      · simp only [EnumeratorLoop, if_neg hEx]
        rw [h3]
        simp [Event.returned]
      · intro e he
        simp only [EnumeratorLoop, if_neg hEx, List.mem_cons] at he
        rcases he with rfl | he
        · rfl
        · rcases he with rfl | he
          · rfl
          · exact h4 e he

theorem EnumeratorsLoop_observe {σ : Type} (G : FNodeDocsGenerator σ) (Ex : TSet FName)
    (Dir : FString) (Es : List (List UObject)) (Gen : σ) (NodeCount : Int) :
    yieldedObjects (EnumeratorsLoop G Ex Dir Es Gen NodeCount).trace = Es.flatten
      ∧ processedObjects (EnumeratorsLoop G Ex Dir Es Gen NodeCount).trace
          = Es.flatten.filter (fun Obj => !Ex.Contains Obj.GetFName)
      ∧ (EnumeratorsLoop G Ex Dir Es Gen NodeCount).NodeCount
          = (returnedCounts (EnumeratorsLoop G Ex Dir Es Gen NodeCount).trace).foldl
              addInt32 NodeCount
      ∧ (∀ e ∈ (EnumeratorsLoop G Ex Dir Es Gen NodeCount).trace, e.isEnumeration = true) := by
  induction Es generalizing Gen NodeCount with
  | nil =>
    simp [EnumeratorsLoop, yieldedObjects, processedObjects, returnedCounts]
  | cons E rest ih =>
    obtain ⟨a1, a2, a3, a4⟩ := EnumeratorLoop_observe G Ex Dir E Gen NodeCount
    obtain ⟨b1, b2, b3, b4⟩ := ih (EnumeratorLoop G Ex Dir E Gen NodeCount).Gen
      (EnumeratorLoop G Ex Dir E Gen NodeCount).NodeCount
    simp only [yieldedObjects, processedObjects, returnedCounts] at a1 a2 a3 b1 b2 b3 ⊢
    refine ⟨?_, ?_, ?_, ?_⟩
    · simp [EnumeratorsLoop, a1, b1]
    · simp [EnumeratorsLoop, a2, b2]
    · simp only [EnumeratorsLoop, List.filterMap_append, List.foldl_append]
      rw [b3, a3]
    · intro e he
      simp only [EnumeratorsLoop, List.mem_append] at he
      rcases he with he | he
      · exact a4 e he
      · exact b4 e he

/-! ## Facts about the shape of a run -/

theorem FramingLoop_events (s : FString) : ∀ e ∈ (FramingLoop s).1, e.isLog = true := by
  induction s using lineFeed_induction with
  | base s hs =>
    rw [FramingLoop_of_not_mem hs]
    simp
  | step a b ha ih =>
    rw [FramingLoop_first_line ha]
    intro e he
    rcases List.mem_cons.1 he with rfl | he
    · rfl
    · exact ih e he

theorem PollLoop_events (script : List (Option Int × FString)) (ReturnCode : Int)
    (BufferedText : FString) :
    ∀ e ∈ (PollLoop script ReturnCode BufferedText).trace,
      e.isPoll = true ∨ e.isLog = true := by
  induction script generalizing ReturnCode BufferedText with
  | nil => simp [PollLoop]
  | cons obs rest ih =>
    obtain ⟨Result, Output⟩ := obs
    intro e he
    have hframed := FramingLoop_events (BufferedText ++ Output)
    have hhead : ∀ e ∈ [Event.GetProcReturnCode Result, Event.ReadPipe Output]
        ++ (FramingLoop (BufferedText ++ Output)).1 ++ [Event.Sleep],
        e.isPoll = true ∨ e.isLog = true := by
      intro e he
      rcases List.mem_append.1 he with he | he
      · rcases List.mem_append.1 he with he | he
        · simp only [List.mem_cons, List.mem_singleton, List.not_mem_nil, or_false] at he
          rcases he with rfl | rfl <;> exact Or.inl rfl
        · exact Or.inr (hframed e he)
      · simp only [List.mem_singleton] at he
        subst he
        exact Or.inl rfl
    cases Result with
    | none =>
      simp only [PollLoop, Option.isSome_none, Bool.false_eq_true, if_false] at he
      rcases List.mem_append.1 he with he | he
      · exact hhead e he
      · exact ih _ _ e he
    | some code =>
      simp only [PollLoop, Option.isSome_some, if_true] at he
      exact hhead e he

theorem ProcessIntermediateDocs_events (P : Platform) (Dir OutputDir DocTitle : FString)
    (bCleanOutput : Bool) :
    ∀ e ∈ ProcessIntermediateDocs P Dir OutputDir DocTitle bCleanOutput,
      e.isPlatformProcess = true ∨ e.isLog = true := by
  intro e he
  unfold ProcessIntermediateDocs at he
  split at he
  · rcases List.mem_cons.1 he with rfl | he
    · exact Or.inl rfl
    rcases List.mem_cons.1 he with rfl | he
    · exact Or.inl rfl
    split at he
    · rcases List.mem_append.1 he with he | he
      · rcases PollLoop_events _ _ _ e he with h | h
        · left
          cases e <;> simp [Event.isPoll] at h <;> rfl
        · exact Or.inr h
      · split at he
        · rcases List.mem_cons.1 he with rfl | he
          · exact Or.inl rfl
          rcases List.mem_append.1 he with he | he
          · split at he
            · simp only [List.mem_singleton] at he
              subst he
              exact Or.inr rfl
            · simp at he
          · simp only [List.mem_cons, List.mem_singleton, List.not_mem_nil, or_false] at he
            rcases he with rfl | rfl <;> exact Or.inl rfl
        · simp at he
    · simp only [List.mem_cons, List.mem_singleton, List.not_mem_nil, or_false] at he
      rcases he with rfl | rfl <;> exact Or.inl rfl
  · simp only [List.mem_cons, List.mem_singleton, List.not_mem_nil, or_false] at he
    rcases he with rfl | rfl <;> exact Or.inl rfl

theorem not_isEnumeration_of_supervisor {e : Event}
    (h : e.isPlatformProcess = true ∨ e.isLog = true) : e.isEnumeration = false := by
  cases e <;> simp [Event.isPlatformProcess, Event.isLog, Event.isEnumeration] at h ⊢

theorem GenerateDocs_of_init {σ : Type} (P : Platform) (Src : Providers)
    (G : FNodeDocsGenerator σ) (Settings : FKantanDocGenSettings)
    (hInit : (G.Init Settings.DocumentationTitle G.New).1 = true) :
    GenerateDocs P Src G Settings
      = [Event.Init Settings.DocumentationTitle true, Event.AddNotification,
          Event.DeleteDirectory (IntermediateDir P) false true]
        ++ (Processing P Src G Settings).trace
        ++ [Event.Finalize (IntermediateDir P),
            Event.UE_LOG ELogVerbosity.Log "Intermediate doc gen timing:" [],
            Event.UE_LOG ELogVerbosity.Log "Enumeration: %.3fs" [LogArg.seconds],
            Event.UE_LOG ELogVerbosity.Log
              "Processing: %.3fs (Image gen: %.3fs, Doc gen: %.3fs)"
              [LogArg.seconds, LogArg.seconds, LogArg.seconds],
            Event.Reset]
        ++ (if (Processing P Src G Settings).NodeCount > 0 then
              Event.UE_LOG ELogVerbosity.Log "Intermediate docs generated for %i nodes."
                  [LogArg.int (Processing P Src G Settings).NodeCount]
                :: ProcessIntermediateDocs P (IntermediateDir P) Settings.OutputDirectory.Path
                    Settings.DocumentationTitle Settings.bCleanOutputDirectory
            else [NoNodesWarning]) := by
  simp [GenerateDocs, hInit, NoNodesWarning]

theorem GenerateDocs_of_not_init {σ : Type} (P : Platform) (Src : Providers)
    (G : FNodeDocsGenerator σ) (Settings : FKantanDocGenSettings)
    (hInit : (G.Init Settings.DocumentationTitle G.New).1 = false) :
    GenerateDocs P Src G Settings
      = [Event.Init Settings.DocumentationTitle false,
         Event.UE_LOG ELogVerbosity.Error "Failed to initialize doc generator, aborting." []] := by
  simp [GenerateDocs, hInit]

theorem GenerateDocs_observe {σ α : Type} (P : Platform) (Src : Providers)
    (G : FNodeDocsGenerator σ) (Settings : FKantanDocGenSettings) (f : Event → Option α)
    (hf : ∀ e, e.isEnumeration = false → f e = none) :
    (GenerateDocs P Src G Settings).filterMap f
      = if (G.Init Settings.DocumentationTitle G.New).1 = true then
          (Processing P Src G Settings).trace.filterMap f
        else [] := by
  have hPID : (ProcessIntermediateDocs P (IntermediateDir P) Settings.OutputDirectory.Path
      Settings.DocumentationTitle Settings.bCleanOutputDirectory).filterMap f = [] := by
    rw [List.filterMap_eq_nil_iff]
    intro e he
    exact hf e (not_isEnumeration_of_supervisor (ProcessIntermediateDocs_events _ _ _ _ _ e he))
  have h1 : ∀ t b, f (Event.Init t b) = none := fun _ _ => hf _ rfl
  have h2 : f Event.AddNotification = none := hf _ rfl
  have h3 : ∀ a b c, f (Event.DeleteDirectory a b c) = none := fun _ _ _ => hf _ rfl
  have h4 : ∀ d, f (Event.Finalize d) = none := fun _ => hf _ rfl
  have h5 : ∀ v fmt a, f (Event.UE_LOG v fmt a) = none := fun _ _ _ => hf _ rfl
  have h6 : f Event.Reset = none := hf _ rfl
  by_cases hInit : (G.Init Settings.DocumentationTitle G.New).1 = true
  · rw [GenerateDocs_of_init P Src G Settings hInit, if_pos hInit]
    split
    · simp [List.filterMap_cons, h1, h2, h3, h4, h5, h6, hPID]
    · simp [List.filterMap_cons, NoNodesWarning, h1, h2, h3, h4, h5, h6]
  · have hInit' : (G.Init Settings.DocumentationTitle G.New).1 = false := by simpa using hInit
    rw [GenerateDocs_of_not_init P Src G Settings hInit', if_neg hInit]
    simp [List.filterMap_cons, h1, h5]

theorem EnumeratorLoop_filter {σ : Type} (G : FNodeDocsGenerator σ) (Ex : TSet FName)
    (Dir : FString) (Objs : List UObject) (Gen : σ) (NodeCount : Int) :
    (EnumeratorLoop G Ex Dir (Objs.filter (fun Obj => !Ex.Contains Obj.GetFName)) Gen
        NodeCount).NodeCount = (EnumeratorLoop G Ex Dir Objs Gen NodeCount).NodeCount
      ∧ (EnumeratorLoop G Ex Dir (Objs.filter (fun Obj => !Ex.Contains Obj.GetFName)) Gen
        NodeCount).Gen = (EnumeratorLoop G Ex Dir Objs Gen NodeCount).Gen := by
  induction Objs generalizing Gen NodeCount with
  | nil => simp [EnumeratorLoop]
  | cons Obj rest ih =>
    by_cases hEx : Ex.Contains Obj.GetFName = true
    · have h := ih Gen NodeCount
      simp only [List.filter_cons, hEx, Bool.not_true, Bool.false_eq_true, if_false]
      simp only [EnumeratorLoop, hEx, if_true]
      exact h
    · have h := ih (G.ProcessSourceObject Obj Dir Gen).2
        (addInt32 NodeCount (G.ProcessSourceObject Obj Dir Gen).1)
      have hEx' : Ex.Contains Obj.GetFName = false := by simpa using hEx
      simp only [List.filter_cons, hEx', Bool.not_false, if_true]
      simp only [EnumeratorLoop, hEx', Bool.false_eq_true, if_false]
      exact h

theorem EnumeratorsLoop_filter {σ : Type} (G : FNodeDocsGenerator σ) (Ex : TSet FName)
    (Dir : FString) (Es : List (List UObject)) (Gen : σ) (NodeCount : Int) :
    (EnumeratorsLoop G Ex Dir
        (Es.map (fun E => E.filter (fun Obj => !Ex.Contains Obj.GetFName))) Gen
        NodeCount).NodeCount = (EnumeratorsLoop G Ex Dir Es Gen NodeCount).NodeCount
      ∧ (EnumeratorsLoop G Ex Dir
        (Es.map (fun E => E.filter (fun Obj => !Ex.Contains Obj.GetFName))) Gen
        NodeCount).Gen = (EnumeratorsLoop G Ex Dir Es Gen NodeCount).Gen := by
  induction Es generalizing Gen NodeCount with
  | nil => simp [EnumeratorsLoop]
  | cons E rest ih =>
    obtain ⟨a1, a2⟩ := EnumeratorLoop_filter G Ex Dir E Gen NodeCount
    simp only [List.map_cons, EnumeratorsLoop]
    rw [a1, a2]
    exact ih _ _

theorem notExcluded_eq (Settings : FKantanDocGenSettings) :
    (fun Obj : UObject => !(Excluded Settings).Contains Obj.GetFName) = notExcluded Settings := by
  funext Obj
  rw [Excluded_Contains]
  simp

theorem foldl_addInt32 (l : List Int) (n : Int) (hn : 0 ≤ n) (hl : ∀ r ∈ l, 0 ≤ r)
    (hsum : n + l.sum < 2147483648) : l.foldl addInt32 n = n + l.sum := by
  induction l generalizing n with
  | nil => simp
  | cons x xs ih =>
    have hx : 0 ≤ x := hl x (List.mem_cons_self _ _)
    have hxs : ∀ r ∈ xs, 0 ≤ r := fun r hr => hl r (List.mem_cons_of_mem _ hr)
    have hs : 0 ≤ xs.sum := List.sum_nonneg hxs
    rw [List.sum_cons] at hsum
    have hadd : addInt32 n x = n + x := by
      unfold addInt32
      omega
    rw [List.foldl_cons, hadd, ih (n + x) (by omega) hxs (by omega), List.sum_cons]
    omega

theorem CreatePipe_mem_ProcessIntermediateDocs (P : Platform) (Dir OutputDir DocTitle : FString)
    (bCleanOutput : Bool) :
    Event.CreatePipe P.CreatePipe ∈ ProcessIntermediateDocs P Dir OutputDir DocTitle
      bCleanOutput := by
  unfold ProcessIntermediateDocs
  split
  · rename_i h
    simp [h]
  · rename_i h
    simp [h]

theorem not_platform_of_isEnumeration {e : Event} (h : e.isEnumeration = true) :
    e.isPlatformProcess = false ∧ e.isFinalize = false := by
  cases e <;> simp [Event.isPlatformProcess, Event.isFinalize, Event.isEnumeration] at h ⊢

theorem Processing_events {σ : Type} (P : Platform) (Src : Providers)
    (G : FNodeDocsGenerator σ) (Settings : FKantanDocGenSettings) :
    ∀ e ∈ (Processing P Src G Settings).trace, e.isEnumeration = true :=
  (EnumeratorsLoop_observe G (Excluded Settings) (IntermediateDir P) (Enumerators Src Settings)
    (G.Init Settings.DocumentationTitle G.New).2 0).2.2.2

theorem GenerateDocs_handOff {σ : Type} (P : Platform) (Src : Providers)
    (G : FNodeDocsGenerator σ) (Settings : FKantanDocGenSettings)
    (hInit : (G.Init Settings.DocumentationTitle G.New).1 = true) :
    ∃ pre, (∀ e ∈ pre, e.isPlatformProcess = false)
      ∧ GenerateDocs P Src G Settings
        = pre ++ (if 0 < (Processing P Src G Settings).NodeCount then
            ProcessIntermediateDocs P (IntermediateDir P) Settings.OutputDirectory.Path
              Settings.DocumentationTitle Settings.bCleanOutputDirectory
          else [NoNodesWarning]) := by
  refine ⟨[Event.Init Settings.DocumentationTitle true, Event.AddNotification,
          Event.DeleteDirectory (IntermediateDir P) false true]
        ++ (Processing P Src G Settings).trace
        ++ [Event.Finalize (IntermediateDir P),
            Event.UE_LOG ELogVerbosity.Log "Intermediate doc gen timing:" [],
            Event.UE_LOG ELogVerbosity.Log "Enumeration: %.3fs" [LogArg.seconds],
            Event.UE_LOG ELogVerbosity.Log
              "Processing: %.3fs (Image gen: %.3fs, Doc gen: %.3fs)"
              [LogArg.seconds, LogArg.seconds, LogArg.seconds],
            Event.Reset]
        ++ (if 0 < (Processing P Src G Settings).NodeCount then
              [Event.UE_LOG ELogVerbosity.Log "Intermediate docs generated for %i nodes."
                  [LogArg.int (Processing P Src G Settings).NodeCount]]
            else []), ?_, ?_⟩
  · intro e he
    rcases List.mem_append.1 he with he | he
    · rcases List.mem_append.1 he with he | he
      · rcases List.mem_append.1 he with he | he
        · simp only [List.mem_cons, List.mem_singleton, List.not_mem_nil, or_false] at he
          rcases he with rfl | rfl | rfl <;> rfl
        · exact (not_platform_of_isEnumeration (Processing_events P Src G Settings e he)).1
      · simp only [List.mem_cons, List.mem_singleton, List.not_mem_nil, or_false] at he
        rcases he with rfl | rfl | rfl | rfl | rfl <;> rfl
    · split at he
      · simp only [List.mem_singleton] at he
        subst he
        rfl
      · simp at he
  · rw [GenerateDocs_of_init P Src G Settings hInit]
    by_cases h : 0 < (Processing P Src G Settings).NodeCount
    · simp [h]
    · simp [h]

theorem GenerateDocs_around_Finalize {σ : Type} (P : Platform) (Src : Providers)
    (G : FNodeDocsGenerator σ) (Settings : FKantanDocGenSettings)
    (hInit : (G.Init Settings.DocumentationTitle G.New).1 = true) :
    ∃ pre post, GenerateDocs P Src G Settings = pre ++ Event.Finalize (IntermediateDir P) :: post
      ∧ (∀ e ∈ pre, e.isFinalize = false)
      ∧ (∀ e ∈ post, e.isFinalize = false ∧ e.isProcessSourceObject = false) := by
  refine ⟨[Event.Init Settings.DocumentationTitle true, Event.AddNotification,
          Event.DeleteDirectory (IntermediateDir P) false true]
        ++ (Processing P Src G Settings).trace,
      [Event.UE_LOG ELogVerbosity.Log "Intermediate doc gen timing:" [],
            Event.UE_LOG ELogVerbosity.Log "Enumeration: %.3fs" [LogArg.seconds],
            Event.UE_LOG ELogVerbosity.Log
              "Processing: %.3fs (Image gen: %.3fs, Doc gen: %.3fs)"
              [LogArg.seconds, LogArg.seconds, LogArg.seconds],
            Event.Reset]
        ++ (if (Processing P Src G Settings).NodeCount > 0 then
              Event.UE_LOG ELogVerbosity.Log "Intermediate docs generated for %i nodes."
                  [LogArg.int (Processing P Src G Settings).NodeCount]
                :: ProcessIntermediateDocs P (IntermediateDir P) Settings.OutputDirectory.Path
                    Settings.DocumentationTitle Settings.bCleanOutputDirectory
            else [NoNodesWarning]), ?_, ?_, ?_⟩
  · rw [GenerateDocs_of_init P Src G Settings hInit]
    simp
  · intro e he
    rcases List.mem_append.1 he with he | he
    · simp only [List.mem_cons, List.mem_singleton, List.not_mem_nil, or_false] at he
      rcases he with rfl | rfl | rfl <;> rfl
    · exact (not_platform_of_isEnumeration (Processing_events P Src G Settings e he)).2
  · intro e he
    rcases List.mem_append.1 he with he | he
    · simp only [List.mem_cons, List.mem_singleton, List.not_mem_nil, or_false] at he
      rcases he with rfl | rfl | rfl | rfl <;> exact ⟨rfl, rfl⟩
    · split at he
      · rcases List.mem_cons.1 he with rfl | he
        · exact ⟨rfl, rfl⟩
        · have h := ProcessIntermediateDocs_events _ _ _ _ _ e he
          cases e <;> simp [Event.isPlatformProcess, Event.isLog, Event.isFinalize,
            Event.isProcessSourceObject] at h ⊢
      · simp only [List.mem_singleton] at he
        subst he
        exact ⟨rfl, rfl⟩

theorem FramingLoop_line_then_segment :
    FramingLoop (TEXT "done\npartial") = ([LogLine (TEXT "done")], TEXT "partial") := by
  have h := FramingLoop_first_line (a := TEXT "done") (by decide) (TEXT "partial")
  rw [FramingLoop_of_not_mem (s := TEXT "partial") (by decide)] at h
  exact h.trans (by decide)

theorem ProcessIntermediateDocs_flag (P : Platform) (Dir OutputDir DocTitle : FString)
    (b c : Bool) :
    (ProcessIntermediateDocs P Dir OutputDir DocTitle b).filter
        (fun e => !e.isPlatformProcess)
      = (ProcessIntermediateDocs P Dir OutputDir DocTitle c).filter
        (fun e => !e.isPlatformProcess) := by
  unfold ProcessIntermediateDocs
  by_cases hPipe : P.CreatePipe = true
  · simp only [hPipe, if_true, List.filter_cons, Event.isPlatformProcess, Bool.not_true,
      Bool.false_eq_true, if_false]
  · rw [if_neg hPipe, if_neg hPipe]

theorem GenerateDocs_after_Finalize {σ : Type} (P : Platform) (Src : Providers)
    (G : FNodeDocsGenerator σ) (Settings : FKantanDocGenSettings)
    (hInit : (G.Init Settings.DocumentationTitle G.New).1 = true) :
    ∃ rest, GenerateDocs P Src G Settings
        = Event.Init Settings.DocumentationTitle true :: Event.AddNotification
          :: Event.DeleteDirectory (IntermediateDir P) false true
          :: ((Processing P Src G Settings).trace
              ++ Event.Finalize (IntermediateDir P) :: rest)
      ∧ ∀ e ∈ rest, e.isDeleteDirectory = false ∧ e.isEnumeration = false := by
  refine ⟨[Event.UE_LOG ELogVerbosity.Log "Intermediate doc gen timing:" [],
            Event.UE_LOG ELogVerbosity.Log "Enumeration: %.3fs" [LogArg.seconds],
            Event.UE_LOG ELogVerbosity.Log
              "Processing: %.3fs (Image gen: %.3fs, Doc gen: %.3fs)"
              [LogArg.seconds, LogArg.seconds, LogArg.seconds],
            Event.Reset]
        ++ (if (Processing P Src G Settings).NodeCount > 0 then
              Event.UE_LOG ELogVerbosity.Log "Intermediate docs generated for %i nodes."
                  [LogArg.int (Processing P Src G Settings).NodeCount]
                :: ProcessIntermediateDocs P (IntermediateDir P) Settings.OutputDirectory.Path
                    Settings.DocumentationTitle Settings.bCleanOutputDirectory
            else [NoNodesWarning]), ?_, ?_⟩
  · rw [GenerateDocs_of_init P Src G Settings hInit]
    simp
  · intro e he
    rcases List.mem_append.1 he with he | he
    · simp only [List.mem_cons, List.mem_singleton, List.not_mem_nil, or_false] at he
      rcases he with rfl | rfl | rfl | rfl <;> exact ⟨rfl, rfl⟩
    · split at he
      · rcases List.mem_cons.1 he with rfl | he
        · exact ⟨rfl, rfl⟩
        · have h := ProcessIntermediateDocs_events _ _ _ _ _ e he
          cases e <;> simp [Event.isPlatformProcess, Event.isLog, Event.isDeleteDirectory,
            Event.isEnumeration] at h ⊢
      · simp only [List.mem_singleton] at he
        subst he
        exact ⟨rfl, rfl⟩

theorem GenerateDocs_flag {σ : Type} (P : Platform) (Src : Providers)
    (G : FNodeDocsGenerator σ) (Settings : FKantanDocGenSettings) (b : Bool) :
    (GenerateDocs P Src G { Settings with bCleanOutputDirectory := b }).filter
        (fun e => !e.isPlatformProcess)
      = (GenerateDocs P Src G Settings).filter (fun e => !e.isPlatformProcess) := by
  by_cases hInit : (G.Init Settings.DocumentationTitle G.New).1 = true
  · have hInit2 : (G.Init ({ Settings with bCleanOutputDirectory := b } :
        FKantanDocGenSettings).DocumentationTitle G.New).1 = true := hInit
    have hProc : Processing P Src G { Settings with bCleanOutputDirectory := b }
        = Processing P Src G Settings := rfl
    rw [GenerateDocs_of_init P Src G Settings hInit,
      GenerateDocs_of_init P Src G _ hInit2, hProc]
    simp only [List.filter_append]
    congr 1
    by_cases hNC : (Processing P Src G Settings).NodeCount > 0
    · simp only [hNC, if_true, List.filter_cons]
      rw [ProcessIntermediateDocs_flag P (IntermediateDir P) Settings.OutputDirectory.Path
        Settings.DocumentationTitle b Settings.bCleanOutputDirectory]
    · simp only [hNC, if_false]
  · have hInit1 : (G.Init Settings.DocumentationTitle G.New).1 = false := by simpa using hInit
    have hInit2 : (G.Init ({ Settings with bCleanOutputDirectory := b } :
        FKantanDocGenSettings).DocumentationTitle G.New).1 = false := hInit1
    rw [GenerateDocs_of_not_init P Src G Settings hInit1,
      GenerateDocs_of_not_init P Src G _ hInit2]

/-! ## The claims -/

/-- C1. Line framing of terminated output: for every text `T` that is empty or ends with a
line feed, the framing loop (a total function: it terminates on every buffer) run on a buffer
holding `T` logs exactly the segments obtained by cutting `T` at each line feed, in order,
each with one trailing carriage return removed when present, and leaves the buffer empty. -/
theorem C1_framing_of_terminated_output (T : FString)
    (hT : T = [] ∨ T.getLast? = some '\n') :
    FramingLoop T = ((terminatedSegments T).map (fun s => LogLine (stripCarriageReturn s)), [])
      ∧ emittedLines (FramingLoop T).1 = (terminatedSegments T).map stripCarriageReturn := by
  have key : ∀ T : FString, (T = [] ∨ T.getLast? = some '\n') →
      FramingLoop T
        = ((terminatedSegments T).map (fun s => LogLine (stripCarriageReturn s)), []) := by
    intro T
    induction T using lineFeed_induction with
    | base s hs =>
      intro hT
      have : s = [] := by
        rcases hT with rfl | hlast
        · rfl
        · exact absurd (List.mem_of_getLast?_eq_some hlast) hs
      subst this
      rw [FramingLoop_of_not_mem (by simp)]
      simp [terminatedSegments]
    | step a b ha ih =>
      intro hT
      have hlast : (a ++ '\n' :: b).getLast? = some '\n' := by
        rcases hT with h | h
        · simp at h
        · exact h
      have hb : b = [] ∨ b.getLast? = some '\n' := by
        rcases List.eq_nil_or_concat b with rfl | ⟨t, c, rfl⟩
        · exact Or.inl rfl
        · right
          have e : a ++ '\n' :: t.concat c = (a ++ '\n' :: t) ++ [c] := by simp
          rw [e, List.getLast?_concat] at hlast
          rw [List.concat_eq_append, List.getLast?_concat]
          exact hlast
      rw [FramingLoop_first_line ha, ih hb, terminatedSegments_first ha]
      simp
  have h := key T hT
  refine ⟨h, ?_⟩
  rw [h]
  simp only [emittedLines, List.filterMap_map, Function.comp_def, LogLine, Event.emittedLine,
    if_true]
  exact congrFun (List.filterMap_eq_map stripCarriageReturn) _

/-- C1, at the text of the specification: line1 LF line2 CR LF. -/
theorem C1_framing_of_terminated_output_witness :
    (TEXT "line1\nline2\r\n" = [] ∨ (TEXT "line1\nline2\r\n").getLast? = some '\n')
      ∧ FramingLoop (TEXT "line1\nline2\r\n")
          = ([LogLine (TEXT "line1"), LogLine (TEXT "line2")], [])
      ∧ emittedLines (FramingLoop (TEXT "line1\nline2\r\n")).1
          = [TEXT "line1", TEXT "line2"] :=
  ⟨by decide,
   (C1_framing_of_terminated_output (TEXT "line1\nline2\r\n") (by decide)).1.trans (by decide),
   (C1_framing_of_terminated_output (TEXT "line1\nline2\r\n") (by decide)).2.trans (by decide)⟩

/-- C10. Framing is independent of how the output is chunked: for every way of reading the
child output as chunks c1..cn on successive poll iterations (the child still running on the
first n-1 of them, running or exited on the last), the lines logged over the n iterations and
the text left in `BufferedText` are those of one framing pass over c1 ++ ... ++ cn, and the
retained buffer holds no line feed. -/
theorem C10_framing_independent_of_chunking (running : List FString) (Result : Option Int)
    (last : FString) :
    emittedLines (PollLoop (running.map (fun c => (none, c)) ++ [(Result, last)]) 0 []).trace
        = emittedLines (FramingLoop (running ++ [last]).flatten).1
      ∧ (PollLoop (running.map (fun c => (none, c)) ++ [(Result, last)]) 0 []).BufferedText
        = (FramingLoop (running ++ [last]).flatten).2
      ∧ '\n' ∉
        (PollLoop (running.map (fun c => (none, c)) ++ [(Result, last)]) 0 []).BufferedText := by
  have h := PollLoop_running running Result last 0 [] (by simp)
  simp only [List.nil_append] at h
  refine ⟨h.1, h.2, ?_⟩
  rw [h.2]
  exact FramingLoop_buffer_no_lineFeed _

/-- C10, with a line and its CR LF terminator split across three reads: the line is logged
once, whole, and the text after it is retained. -/
theorem C10_framing_independent_of_chunking_witness :
    emittedLines
        (PollLoop [(none, TEXT "ab"), (none, TEXT "c\r"), (some 0, TEXT "\nd")] 0 []).trace
      = [TEXT "abc"]
    ∧ (PollLoop [(none, TEXT "ab"), (none, TEXT "c\r"), (some 0, TEXT "\nd")] 0 []).BufferedText
      = TEXT "d" := by
  have h := C10_framing_independent_of_chunking [TEXT "ab", TEXT "c\r"] (some 0) (TEXT "\nd")
  have e : FramingLoop ([TEXT "ab", TEXT "c\r"] ++ [TEXT "\nd"]).flatten
      = ([LogLine (TEXT "abc")], TEXT "d") := by
    have h1 := FramingLoop_first_line (a := TEXT "abc\r") (by decide) (TEXT "d")
    rw [FramingLoop_of_not_mem (s := TEXT "d") (by decide)] at h1
    exact h1.trans (by decide)
  rw [e] at h
  exact ⟨h.1.trans (by decide), h.2.1⟩

/-- C2. Exclusion: in every run of `GenerateDocs`, the objects `ProcessSourceObject` is called
on are exactly the yielded objects whose name is not in `Settings.ExcludedClasses`, in the
order yielded; so no call is made on an excluded object and every other yielded object is
passed on. The node total is the `int32` sum of the values those calls return, and taking the
excluded objects out of the enumerators leaves it unchanged: they add nothing to it. -/
theorem C2_excluded_objects_are_skipped {σ : Type} (P : Platform) (Src : Providers)
    (G : FNodeDocsGenerator σ) (Settings : FKantanDocGenSettings) :
    processedObjects (GenerateDocs P Src G Settings)
        = (yieldedObjects (GenerateDocs P Src G Settings)).filter (notExcluded Settings)
      ∧ (∀ Obj ∈ processedObjects (GenerateDocs P Src G Settings),
          Obj.GetFName ∉ Settings.ExcludedClasses)
      ∧ (Processing P Src G Settings).NodeCount
          = (returnedCounts (Processing P Src G Settings).trace).foldl addInt32 0
      ∧ (EnumeratorsLoop G (Excluded Settings) (IntermediateDir P)
            ((Enumerators Src Settings).map (fun E => E.filter (notExcluded Settings)))
            (G.Init Settings.DocumentationTitle G.New).2 0).NodeCount
          = (Processing P Src G Settings).NodeCount := by
  obtain ⟨h1, h2, h3, _⟩ := EnumeratorsLoop_observe G (Excluded Settings) (IntermediateDir P)
    (Enumerators Src Settings) (G.Init Settings.DocumentationTitle G.New).2 0
  rw [notExcluded_eq] at h2
  have hp : processedObjects (GenerateDocs P Src G Settings)
      = (yieldedObjects (GenerateDocs P Src G Settings)).filter (notExcluded Settings) := by
    unfold processedObjects yieldedObjects
    rw [GenerateDocs_observe P Src G Settings Event.processed
        (by intro e he; cases e <;> simp [Event.isEnumeration] at he <;> rfl),
      GenerateDocs_observe P Src G Settings Event.yielded
        (by intro e he; cases e <;> simp [Event.isEnumeration] at he <;> rfl)]
    split
    · exact h2.trans (by rw [← h1]; rfl)
    · rfl
  refine ⟨hp, ?_, h3, ?_⟩
  · intro Obj hObj
    rw [hp] at hObj
    have := (List.mem_filter.1 hObj).2
    simpa [notExcluded] using this
  · rw [← notExcluded_eq]
    exact (EnumeratorsLoop_filter G (Excluded Settings) (IntermediateDir P)
      (Enumerators Src Settings) (G.Init Settings.DocumentationTitle G.New).2 0).1

/-- C2, on a run whose module holds `ClassA` and `ClassB` with `ClassA` excluded: both are
yielded, only `ClassB` is processed, and the node total is 1. -/
theorem C2_excluded_objects_are_skipped_witness :
    yieldedObjects (GenerateDocs samplePlatform sampleProviders stubGenerator
        { sampleSettings with ExcludedClasses := [ClassA.GetFName] }) = [ClassA, ClassB]
      ∧ processedObjects (GenerateDocs samplePlatform sampleProviders stubGenerator
        { sampleSettings with ExcludedClasses := [ClassA.GetFName] }) = [ClassB]
      ∧ (Processing samplePlatform sampleProviders stubGenerator
        { sampleSettings with ExcludedClasses := [ClassA.GetFName] }).NodeCount = 1 := by
  have h := C2_excluded_objects_are_skipped samplePlatform sampleProviders stubGenerator
    { sampleSettings with ExcludedClasses := [ClassA.GetFName] }
  have hy : yieldedObjects (GenerateDocs samplePlatform sampleProviders stubGenerator
      { sampleSettings with ExcludedClasses := [ClassA.GetFName] }) = [ClassA, ClassB] := by
    unfold yieldedObjects
    rw [GenerateDocs_observe _ _ _ _ Event.yielded
      (by intro e he; cases e <;> simp [Event.isEnumeration] at he <;> rfl)]
    decide
  refine ⟨hy, ?_, h.2.2.1.trans (by decide)⟩
  rw [h.1, hy]
  decide

/-- C3. External-tool gating: after a successful `Init`, with every value returned by
`ProcessSourceObject` non-negative and their sum within `int32`, `GenerateDocs` calls the
platform process layer exactly when that sum is greater than zero, and then its run ends with
the run of `ProcessIntermediateDocs`; when the sum is zero it logs the no-nodes warning and
makes no such call. With empty module and path lists the enumerators yield nothing, the node
total is zero, the warning is logged and the tool is not invoked. -/
theorem C3_tool_runs_iff_nodes_documented {σ : Type} (P : Platform) (Src : Providers)
    (G : FNodeDocsGenerator σ) (Settings : FKantanDocGenSettings)
    (hInit : (G.Init Settings.DocumentationTitle G.New).1 = true) :
    ((∀ r ∈ returnedCounts (GenerateDocs P Src G Settings), 0 ≤ r) →
      (returnedCounts (GenerateDocs P Src G Settings)).sum < 2147483648 →
        (0 < (returnedCounts (GenerateDocs P Src G Settings)).sum
            ↔ ∃ e ∈ GenerateDocs P Src G Settings, e.isPlatformProcess = true)
          ∧ (0 < (returnedCounts (GenerateDocs P Src G Settings)).sum →
              ∃ pre, (∀ e ∈ pre, e.isPlatformProcess = false)
                ∧ GenerateDocs P Src G Settings
                  = pre ++ ProcessIntermediateDocs P (IntermediateDir P)
                      Settings.OutputDirectory.Path Settings.DocumentationTitle
                      Settings.bCleanOutputDirectory)
          ∧ ((returnedCounts (GenerateDocs P Src G Settings)).sum = 0 →
              NoNodesWarning ∈ GenerateDocs P Src G Settings
                ∧ ∀ e ∈ GenerateDocs P Src G Settings, e.isPlatformProcess = false))
      ∧ (Settings.NativeModules = [] → Settings.ContentPaths = [] →
          yieldedObjects (GenerateDocs P Src G Settings) = []
            ∧ (Processing P Src G Settings).NodeCount = 0
            ∧ NoNodesWarning ∈ GenerateDocs P Src G Settings
            ∧ ∀ e ∈ GenerateDocs P Src G Settings, e.isPlatformProcess = false) := by
  obtain ⟨pre, hpre, hshape⟩ := GenerateDocs_handOff P Src G Settings hInit
  have hzero : ¬ 0 < (Processing P Src G Settings).NodeCount →
      NoNodesWarning ∈ GenerateDocs P Src G Settings
        ∧ ∀ e ∈ GenerateDocs P Src G Settings, e.isPlatformProcess = false := by
    intro h
    rw [hshape, if_neg h]
    refine ⟨by simp, ?_⟩
    intro e he
    rcases List.mem_append.1 he with he | he
    · exact hpre e he
    · simp only [List.mem_singleton] at he
      subst he
      rfl
  constructor
  · intro hnonneg hsum
    have hrc : returnedCounts (GenerateDocs P Src G Settings)
        = returnedCounts (Processing P Src G Settings).trace := by
      unfold returnedCounts
      rw [GenerateDocs_observe P Src G Settings Event.returned
        (by intro e he; cases e <;> simp [Event.isEnumeration] at he <;> rfl), if_pos hInit]
    have hNC : (Processing P Src G Settings).NodeCount
        = (returnedCounts (GenerateDocs P Src G Settings)).sum := by
      have h3 : (Processing P Src G Settings).NodeCount
          = List.foldl addInt32 0 (returnedCounts (Processing P Src G Settings).trace) :=
        (EnumeratorsLoop_observe G (Excluded Settings) (IntermediateDir P)
          (Enumerators Src Settings) (G.Init Settings.DocumentationTitle G.New).2 0).2.2.1
      rw [hrc] at hnonneg hsum ⊢
      rw [h3, foldl_addInt32 _ 0 (Int.le_refl 0) hnonneg (by simpa using hsum)]
      simp
    have hsum0 : 0 ≤ (returnedCounts (GenerateDocs P Src G Settings)).sum :=
      List.sum_nonneg hnonneg
    have hpos : 0 < (returnedCounts (GenerateDocs P Src G Settings)).sum →
        ∃ pre, (∀ e ∈ pre, e.isPlatformProcess = false)
          ∧ GenerateDocs P Src G Settings
            = pre ++ ProcessIntermediateDocs P (IntermediateDir P)
                Settings.OutputDirectory.Path Settings.DocumentationTitle
                Settings.bCleanOutputDirectory := by
      intro h
      rw [← hNC] at h
      refine ⟨pre, hpre, ?_⟩
      rw [hshape, if_pos h]
    refine ⟨⟨?_, ?_⟩, hpos, ?_⟩
    · intro h
      obtain ⟨pre', _, e'⟩ := hpos h
      refine ⟨Event.CreatePipe P.CreatePipe, ?_, rfl⟩
      rw [e']
      exact List.mem_append_right _ (CreatePipe_mem_ProcessIntermediateDocs _ _ _ _ _)
    · rintro ⟨e, he, hp⟩
      by_contra hn
      have hn' : ¬ 0 < (Processing P Src G Settings).NodeCount := by rw [hNC]; exact hn
      have := (hzero hn').2 e he
      rw [this] at hp
      cases hp
    · intro h0
      exact hzero (by rw [hNC, h0]; decide)
  · intro hN hC
    have hE : Enumerators Src Settings = [[], []] := by
      simp [Enumerators, FCompositeEnumerator, hN, hC]
    have hy : yieldedObjects (GenerateDocs P Src G Settings) = [] := by
      unfold yieldedObjects
      rw [GenerateDocs_observe P Src G Settings Event.yielded
        (by intro e he; cases e <;> simp [Event.isEnumeration] at he <;> rfl), if_pos hInit]
      unfold Processing
      rw [hE]
      rfl
    have hNC : (Processing P Src G Settings).NodeCount = 0 := by
      unfold Processing
      rw [hE]
      rfl
    exact ⟨hy, hNC, hzero (by rw [hNC]; decide)⟩

/-- C3, on the end-to-end scenario: two objects, one node each, so the sum is 2 and the run
ends with the run of the external tool. -/
theorem C3_tool_runs_iff_nodes_documented_witness :
    returnedCounts (GenerateDocs samplePlatform sampleProviders stubGenerator sampleSettings)
        = [1, 1]
      ∧ ∃ pre, (∀ e ∈ pre, e.isPlatformProcess = false)
          ∧ GenerateDocs samplePlatform sampleProviders stubGenerator sampleSettings
            = pre ++ ProcessIntermediateDocs samplePlatform (IntermediateDir samplePlatform)
                sampleSettings.OutputDirectory.Path sampleSettings.DocumentationTitle
                sampleSettings.bCleanOutputDirectory := by
  have hrc : returnedCounts
      (GenerateDocs samplePlatform sampleProviders stubGenerator sampleSettings) = [1, 1] := by
    unfold returnedCounts
    rw [GenerateDocs_observe _ _ _ _ Event.returned
      (by intro e he; cases e <;> simp [Event.isEnumeration] at he <;> rfl)]
    decide
  refine ⟨hrc, ?_⟩
  exact ((C3_tool_runs_iff_nodes_documented samplePlatform sampleProviders stubGenerator
    sampleSettings rfl).1 (by rw [hrc]; decide) (by rw [hrc]; decide)).2.1
      (by rw [hrc]; decide)

/-- C4, as the code has it: in a run of `GenerateDocs` whose `Init` succeeds, `Finalize` is
called exactly once, after every `ProcessSourceObject` call of the run, whatever the settings
and the enumerator output (zero processed objects included); in a run whose `Init` fails
neither `Finalize` nor `ProcessSourceObject` is called. -/
theorem C4_finalize_once_after_processing {σ : Type} (P : Platform) (Src : Providers)
    (G : FNodeDocsGenerator σ) (Settings : FKantanDocGenSettings) :
    ((G.Init Settings.DocumentationTitle G.New).1 = true →
        (GenerateDocs P Src G Settings).countP Event.isFinalize = 1
          ∧ ∃ pre post,
              GenerateDocs P Src G Settings = pre ++ Event.Finalize (IntermediateDir P) :: post
                ∧ (∀ e ∈ pre, e.isFinalize = false)
                ∧ (∀ e ∈ post, e.isFinalize = false ∧ e.isProcessSourceObject = false))
      ∧ ((G.Init Settings.DocumentationTitle G.New).1 = false →
          ∀ e ∈ GenerateDocs P Src G Settings,
            e.isFinalize = false ∧ e.isProcessSourceObject = false) := by
  constructor
  · intro hInit
    obtain ⟨pre, post, hshape, hpre, hpost⟩ := GenerateDocs_around_Finalize P Src G Settings hInit
    refine ⟨?_, pre, post, hshape, hpre, hpost⟩
    have h1 : pre.countP Event.isFinalize = 0 := by
      rw [List.countP_eq_zero]
      intro e he
      simp [hpre e he]
    have h2 : post.countP Event.isFinalize = 0 := by
      rw [List.countP_eq_zero]
      intro e he
      simp [(hpost e he).1]
    rw [hshape, List.countP_append, List.countP_cons, h1, h2]
    simp [Event.isFinalize]
  · intro hInit e he
    rw [GenerateDocs_of_not_init P Src G Settings hInit] at he
    simp only [List.mem_cons, List.mem_singleton, List.not_mem_nil, or_false] at he
    rcases he with rfl | rfl <;> exact ⟨rfl, rfl⟩

/-- C4, on the end-to-end scenario (`Init` succeeds): one `Finalize` call. -/
theorem C4_finalize_once_after_processing_witness :
    (stubGenerator.Init sampleSettings.DocumentationTitle stubGenerator.New).1 = true
      ∧ (GenerateDocs samplePlatform sampleProviders stubGenerator sampleSettings).countP
          Event.isFinalize = 1 :=
  ⟨rfl, ((C4_finalize_once_after_processing samplePlatform sampleProviders stubGenerator
    sampleSettings).1 rfl).1⟩

/-- C4 as stated fails: a run of `GenerateDocs` whose `Init` fails calls `Finalize` zero
times, not once. -/
theorem C4_no_finalize_when_init_fails :
    (GenerateDocs samplePlatform sampleProviders failingGenerator sampleSettings).countP
        Event.isFinalize = 0
      ∧ ¬ (GenerateDocs samplePlatform sampleProviders failingGenerator sampleSettings).countP
        Event.isFinalize = 1 := by
  constructor <;> decide

/-- C9, as the code has it: after a successful `Init`, `GenerateDocs` deletes the
intermediate directory before processing on every run, whether the settings request clean
output or not. The run starts with `Init`, the notification and the `DeleteDirectory` call on
the intermediate directory; the enumeration loops follow at once, then `Finalize`; that call
is the only `DeleteDirectory` call of the run and no enumeration or processing call comes
before it or after `Finalize`. Changing the clean-output setting changes no call of the run
outside the platform process layer, so the deletion and the processing do not follow it. -/
theorem C9_intermediate_directory_always_deleted {σ : Type} (P : Platform) (Src : Providers)
    (G : FNodeDocsGenerator σ) (Settings : FKantanDocGenSettings)
    (hInit : (G.Init Settings.DocumentationTitle G.New).1 = true) :
    (∃ rest, GenerateDocs P Src G Settings
        = Event.Init Settings.DocumentationTitle true :: Event.AddNotification
          :: Event.DeleteDirectory (IntermediateDir P) false true
          :: ((Processing P Src G Settings).trace
              ++ Event.Finalize (IntermediateDir P) :: rest)
        ∧ ∀ e ∈ rest, e.isDeleteDirectory = false ∧ e.isEnumeration = false)
      ∧ (GenerateDocs P Src G Settings).filter Event.isDeleteDirectory
          = [Event.DeleteDirectory (IntermediateDir P) false true]
      ∧ (∀ b : Bool,
          (GenerateDocs P Src G { Settings with bCleanOutputDirectory := b }).filter
              Event.isDeleteDirectory
            = [Event.DeleteDirectory (IntermediateDir P) false true]
          ∧ (GenerateDocs P Src G { Settings with bCleanOutputDirectory := b }).filter
              (fun e => !e.isPlatformProcess)
            = (GenerateDocs P Src G Settings).filter (fun e => !e.isPlatformProcess)) := by
  have hdel : ∀ S : FKantanDocGenSettings, (G.Init S.DocumentationTitle G.New).1 = true →
      (GenerateDocs P Src G S).filter Event.isDeleteDirectory
        = [Event.DeleteDirectory (IntermediateDir P) false true] := by
    intro S hS
    obtain ⟨rest, hshape, hrest⟩ := GenerateDocs_after_Finalize P Src G S hS
    have h1 : (Processing P Src G S).trace.filter Event.isDeleteDirectory = [] := by
      rw [List.filter_eq_nil_iff]
      intro e he
      have h := Processing_events P Src G S e he
      cases e <;> simp [Event.isEnumeration, Event.isDeleteDirectory] at h ⊢
    have h2 : rest.filter Event.isDeleteDirectory = [] := by
      rw [List.filter_eq_nil_iff]
      intro e he
      simp [(hrest e he).1]
    rw [hshape]
    simp [List.filter_cons, Event.isDeleteDirectory, h1, h2]
  refine ⟨GenerateDocs_after_Finalize P Src G Settings hInit, hdel Settings hInit, ?_⟩
  intro b
  exact ⟨hdel { Settings with bCleanOutputDirectory := b } hInit,
    GenerateDocs_flag P Src G Settings b⟩

/-- C9, on the end-to-end scenario, which does not request clean output: the one
`DeleteDirectory` call of the run is the one on the intermediate directory, and it is there
as well when clean output is requested. -/
theorem C9_intermediate_directory_always_deleted_witness :
    (stubGenerator.Init sampleSettings.DocumentationTitle stubGenerator.New).1 = true
      ∧ (GenerateDocs samplePlatform sampleProviders stubGenerator sampleSettings).filter
          Event.isDeleteDirectory
        = [Event.DeleteDirectory (IntermediateDir samplePlatform) false true]
      ∧ (GenerateDocs samplePlatform sampleProviders stubGenerator
          { sampleSettings with bCleanOutputDirectory := true }).filter Event.isDeleteDirectory
        = [Event.DeleteDirectory (IntermediateDir samplePlatform) false true] :=
  ⟨rfl,
   (C9_intermediate_directory_always_deleted samplePlatform sampleProviders stubGenerator
    sampleSettings rfl).2.1,
   ((C9_intermediate_directory_always_deleted samplePlatform sampleProviders stubGenerator
    sampleSettings rfl).2.2 true).1⟩

/-- C9 as stated fails: with settings that do not request clean output the intermediate
directory is deleted all the same, not left in place. The run opens with `Init`, the
notification, the `DeleteDirectory` call, and goes straight on to the first object. -/
theorem C9_deleted_without_clean_request :
    sampleSettings.bCleanOutputDirectory = false
      ∧ (stubGenerator.Init sampleSettings.DocumentationTitle stubGenerator.New).1 = true
      ∧ Event.DeleteDirectory (TEXT "Game/Intermediate/KantanDocGen") false true
          ∈ GenerateDocs samplePlatform sampleProviders stubGenerator sampleSettings
      ∧ (GenerateDocs samplePlatform sampleProviders stubGenerator sampleSettings).take 5
        = [Event.Init (TEXT "MyDocs") true, Event.AddNotification,
           Event.DeleteDirectory (TEXT "Game/Intermediate/KantanDocGen") false true,
           Event.GetNext (some ClassA),
           Event.ProcessSourceObject ClassA (TEXT "Game/Intermediate/KantanDocGen") 1] := by
  refine ⟨rfl, rfl, ?_, ?_⟩
  · decide
  · decide

/-- C5. Argument string: for every intermediate directory, output directory, title and
clean-output flag, the string `ProcessIntermediateDocs` builds and hands to `CreateProc` is
the described one: the output directory in double quotes, `-fromintermediate`, the
intermediate directory in double quotes, the title, then the clean-output switch exactly when
the flag is set. `GenerateDocs`, when it has documented a node, ends with the run of
`ProcessIntermediateDocs` on the settings' output directory path, title and flag, unchanged,
so that these reach `CreateProc`. -/
theorem C5_argument_string {σ : Type} (P : Platform) (Src : Providers)
    (G : FNodeDocsGenerator σ) (Settings : FKantanDocGenSettings)
    (Dir OutputDir DocTitle : FString) (bCleanOutput : Bool) :
    Args Dir OutputDir DocTitle bCleanOutput = describedArgs Dir OutputDir DocTitle bCleanOutput
      ∧ (P.CreatePipe = true → ∃ rest,
          ProcessIntermediateDocs P Dir OutputDir DocTitle bCleanOutput
            = Event.CreatePipe true
              :: Event.CreateProc (DocGenPath P)
                  (describedArgs Dir OutputDir DocTitle bCleanOutput) P.CreateProc
              :: rest)
      ∧ ((G.Init Settings.DocumentationTitle G.New).1 = true →
          0 < (Processing P Src G Settings).NodeCount →
            (∃ pre, (∀ e ∈ pre, e.isPlatformProcess = false)
              ∧ GenerateDocs P Src G Settings
                = pre ++ ProcessIntermediateDocs P (IntermediateDir P)
                    Settings.OutputDirectory.Path Settings.DocumentationTitle
                    Settings.bCleanOutputDirectory)
            ∧ (P.CreatePipe = true →
                Event.CreateProc (DocGenPath P)
                    (describedArgs (IntermediateDir P) Settings.OutputDirectory.Path
                      Settings.DocumentationTitle Settings.bCleanOutputDirectory) P.CreateProc
                  ∈ GenerateDocs P Src G Settings)) := by
  have hArgs : ∀ (I O T : FString) (b : Bool), Args I O T b = describedArgs I O T b := by
    intro I O T b
    cases b <;> simp [Args, describedArgs, TEXT]
  have hPID : ∀ (I O T : FString) (b : Bool), P.CreatePipe = true → ∃ rest,
      ProcessIntermediateDocs P I O T b
        = Event.CreatePipe true
          :: Event.CreateProc (DocGenPath P) (describedArgs I O T b) P.CreateProc :: rest := by
    intro I O T b hPipe
    unfold ProcessIntermediateDocs
    rw [if_pos hPipe, hArgs]
    exact ⟨_, rfl⟩
  refine ⟨hArgs _ _ _ _, hPID _ _ _ _, ?_⟩
  intro hInit hNC
  obtain ⟨pre, hpre, hshape⟩ := GenerateDocs_handOff P Src G Settings hInit
  rw [if_pos hNC] at hshape
  refine ⟨⟨pre, hpre, hshape⟩, ?_⟩
  intro hPipe
  obtain ⟨rest, hrest⟩ := hPID (IntermediateDir P) Settings.OutputDirectory.Path
    Settings.DocumentationTitle Settings.bCleanOutputDirectory hPipe
  rw [hshape, hrest]
  simp

/-- C5, on the end-to-end scenario: the tool is started with the given output directory,
intermediate directory and title. -/
theorem C5_argument_string_witness :
    Event.CreateProc (TEXT "Engine/Binaries/DotNET/KantanDocGen.exe")
        (TEXT ("-outputdir=\"Out Dir\" -fromintermediate "
          ++ "-intermediatedir=\"Game/Intermediate/KantanDocGen\" -name=MyDocs")) true
      ∈ GenerateDocs samplePlatform sampleProviders stubGenerator sampleSettings := by
  have h := ((C5_argument_string samplePlatform sampleProviders stubGenerator sampleSettings
    [] [] [] false).2.2 rfl (by decide)).2 rfl
  have e : Event.CreateProc (DocGenPath samplePlatform)
      (describedArgs (IntermediateDir samplePlatform) sampleSettings.OutputDirectory.Path
        sampleSettings.DocumentationTitle sampleSettings.bCleanOutputDirectory)
      samplePlatform.CreateProc
      = Event.CreateProc (TEXT "Engine/Binaries/DotNET/KantanDocGen.exe")
        (TEXT ("-outputdir=\"Out Dir\" -fromintermediate "
          ++ "-intermediatedir=\"Game/Intermediate/KantanDocGen\" -name=MyDocs")) true := by
    decide
  rw [e] at h
  exact h

/-- C7, as the code has it: when `CreateProc` returns an invalid handle,
`ProcessIntermediateDocs` makes no poll iteration (no exit-code check, no pipe read) and does
not log the non-zero-exit error: all it does after the spawn attempt is close the two pipe
ends. -/
theorem C7_spawn_failure_skips_polling (P : Platform) (Dir OutputDir DocTitle : FString)
    (bCleanOutput : Bool) (hPipe : P.CreatePipe = true) (hProc : P.CreateProc = false) :
    ProcessIntermediateDocs P Dir OutputDir DocTitle bCleanOutput
        = [Event.CreatePipe true,
           Event.CreateProc (DocGenPath P) (Args Dir OutputDir DocTitle bCleanOutput) false,
           Event.ClosePipe, Event.ClosePipe]
      ∧ (∀ e ∈ ProcessIntermediateDocs P Dir OutputDir DocTitle bCleanOutput,
          e.isPoll = false
            ∧ e ≠ Event.UE_LOG ELogVerbosity.Error
                "KantanDocGen tool failed, see above output." []) := by
  have h : ProcessIntermediateDocs P Dir OutputDir DocTitle bCleanOutput
      = [Event.CreatePipe true,
         Event.CreateProc (DocGenPath P) (Args Dir OutputDir DocTitle bCleanOutput) false,
         Event.ClosePipe, Event.ClosePipe] := by
    simp [ProcessIntermediateDocs, hPipe, hProc]
  refine ⟨h, ?_⟩
  intro e he
  rw [h] at he
  simp only [List.mem_cons, List.mem_singleton, List.not_mem_nil, or_false] at he
  rcases he with rfl | rfl | rfl | rfl <;> exact ⟨rfl, by simp⟩

/-- C7, on a platform whose `CreateProc` fails. -/
theorem C7_spawn_failure_skips_polling_witness :
    spawnFailurePlatform.CreatePipe = true ∧ spawnFailurePlatform.CreateProc = false
      ∧ ProcessIntermediateDocs spawnFailurePlatform (TEXT "Int") (TEXT "Out") (TEXT "Docs") false
        = [Event.CreatePipe true,
           Event.CreateProc (DocGenPath spawnFailurePlatform)
            (Args (TEXT "Int") (TEXT "Out") (TEXT "Docs") false) false,
           Event.ClosePipe, Event.ClosePipe] :=
  ⟨rfl, rfl, (C7_spawn_failure_skips_polling spawnFailurePlatform (TEXT "Int") (TEXT "Out")
    (TEXT "Docs") false rfl rfl).1⟩

/-- C7 as stated fails: when `CreateProc` returns an invalid handle nothing is logged, so no
error reports the spawn failure. -/
theorem C7_spawn_failure_logs_nothing :
    spawnFailurePlatform.CreateProc = false
      ∧ (ProcessIntermediateDocs spawnFailurePlatform (TEXT "Int") (TEXT "Out") (TEXT "Docs")
          false).filter Event.isLog = [] := by
  constructor <;> decide

/-- C6 fails on the code: the tool writes a line and an unterminated segment and exits. The
poll loop sees the exit, reads both, logs the line, and leaves with the segment still in
`BufferedText`; nothing after the loop logs it, so the run of `ProcessIntermediateDocs` logs
the first line only. -/
theorem C6_final_partial_line_is_dropped :
    (PollLoop partialLinePlatform.Polls 0 []).bProcessFinished = true
      ∧ (PollLoop partialLinePlatform.Polls 0 []).BufferedText = TEXT "partial"
      ∧ (ProcessIntermediateDocs partialLinePlatform (TEXT "Int") (TEXT "Out") (TEXT "Docs")
          false).filter Event.isLog = [LogLine (TEXT "done")] := by
  have hP : PollLoop partialLinePlatform.Polls 0 []
      = ⟨[Event.GetProcReturnCode (some 0), Event.ReadPipe (TEXT "done\npartial"),
          LogLine (TEXT "done"), Event.Sleep], true, 0, TEXT "partial"⟩ := by
    show PollLoop [(some 0, TEXT "done\npartial")] 0 [] = _
    simp only [PollLoop, List.nil_append, FramingLoop_line_then_segment]
    rfl
  refine ⟨by rw [hP], by rw [hP], ?_⟩
  unfold ProcessIntermediateDocs
  rw [hP]
  decide

/-- C8 fails on the code: the title is appended bare, unlike the two directories. With the
title `My Docs` the command line splits into five tokens; the one starting with `-name=`
carries `My` only and `Docs` is a token of its own. -/
theorem C8_title_with_space_is_split :
    commandLineTokens (Args (TEXT "Int Dir") (TEXT "Out Dir") (TEXT "My Docs") false)
        = [TEXT "-outputdir=\"Out Dir\"", TEXT "-fromintermediate",
           TEXT "-intermediatedir=\"Int Dir\"", TEXT "-name=My", TEXT "Docs"]
      ∧ nameTokens (Args (TEXT "Int Dir") (TEXT "Out Dir") (TEXT "My Docs") false)
        = [TEXT "-name=My"] := by
  constructor <;> decide

end KantanDocGen
